import Mathlib

/-!
Verification of the audio rendering core in src/src/main.cpp.

Modelling conventions:
- C doubles are modelled as real numbers; the double arithmetic of the
  source is transcribed operation by operation (in particular the time
  accumulator is iterated addition, not a closed form).
- Machine integers are modelled as Nat / Int; the narrowing conversion
  (short)(double) of the source is truncation toward zero followed by
  reduction into the 16-bit twos-complement range.
- generate_samples is a template over the sample type T and receives the
  waveform through a function pointer; it is modelled as a function
  parametrised by an encoding (what the `if constexpr` branch stores for a
  given volume * value) and by the generator function.  Its output is the
  ordered list of (index, stored value) writes into the destination
  buffer together with the value written back through initial_time.
-/

/-- main.cpp line 55: `(0.0 < val) - (val < 0.0)`. -/
noncomputable def sign (val : ℝ) : ℝ :=
  (if 0 < val then (1 : ℝ) else 0) - (if val < 0 then (1 : ℝ) else 0)

/-- main.cpp line 59: `sin(2 * M_PI * frequency * time)`. -/
noncomputable def sine (frequency time : ℝ) : ℝ :=
  Real.sin (2 * Real.pi * frequency * time)

/-- main.cpp line 63: `2 * abs(2 * (time * frequency - floor(time * frequency + 0.5))) - 1`. -/
noncomputable def triangle (frequency time : ℝ) : ℝ :=
  2 * |2 * (time * frequency - ⌊time * frequency + 0.5⌋)| - 1

/-- main.cpp line 67: `sign(sin(2 * M_PI * frequency * time))`. -/
noncomputable def square (frequency time : ℝ) : ℝ :=
  sign (Real.sin (2 * Real.pi * frequency * time))

/-- main.cpp line 71: `2 * (time * frequency - floor(time * frequency + 0.5))`. -/
noncomputable def sawtooth (frequency time : ℝ) : ℝ :=
  2 * (time * frequency - ⌊time * frequency + 0.5⌋)

/-- Truncation toward zero, the conversion C++ applies when casting a
double to an integer type. -/
noncomputable def truncTowardZero (x : ℝ) : ℤ :=
  if 0 ≤ x then ⌊x⌋ else ⌈x⌉

/-- Reduction of an integer into the twos-complement range of a 16-bit
short, [-32768, 32767]: what storing the low 16 bits does on the target. -/
def wrap16 (n : ℤ) : ℤ :=
  (n + 32768) % 65536 - 32768

/-- main.cpp line 98: the `short` branch stores `(short)(volume * value * _I16_MAX)`
with `_I16_MAX = 32767`; the argument here is the product `volume * value`. -/
noncomputable def encodeInt16 (x : ℝ) : ℤ :=
  wrap16 (truncTowardZero (x * 32767))

/-- main.cpp line 95: the `float` branch stores `(float)(volume * value)`;
the double-to-float narrowing is the identity in the real-number model. -/
noncomputable def encodeFloat (x : ℝ) : ℝ := x

/-- Number of iterations of `for (i = 0; i < numSamples; i += channel_count)`:
the count of multiples of channel_count below numSamples, i.e.
ceil(numSamples / channel_count) when channel_count > 0
(see iterCount_spec below). -/
def iterCount (numSamples channel_count : ℕ) : ℕ :=
  (numSamples + channel_count - 1) / channel_count

/-- The loop of main.cpp lines 90-103, by recursion on the remaining
iteration count.  State threaded exactly as in the source: `time` (the
accumulator, incremented once per outer iteration) and `i` (the sample
index, advanced by channel_count).  Each iteration evaluates the
generator once and writes the encoded `volume * value` to the
channel_count slots `i + j`, `j < channel_count`. -/
noncomputable def genLoop {α : Type} (encode : ℝ → α) (generator : ℝ → ℝ → ℝ)
    (frequency volume increment : ℝ) (channel_count : ℕ) :
    ℕ → ℝ → ℕ → List (ℕ × α) × ℝ
  | 0, time, _ => ([], time)
  | fuel + 1, time, i =>
    let value := generator frequency time
    let rest := genLoop encode generator frequency volume increment channel_count
      fuel (time + increment) (i + channel_count)
    ((List.range channel_count).map (fun j => (i + j, encode (volume * value))) ++ rest.1,
      rest.2)

/-- main.cpp lines 75-108.  `length` is in bytes and `sizeofT` is
sizeof(T), so the loop bound is `length / sizeofT` samples.
`increment = 1.0 / samples_per_second`; the starting time is
`*initial_time` when the pointer is non-null and 0 otherwise, and the
final accumulator is written back only through a non-null pointer. -/
noncomputable def generate_samples {α : Type} (encode : ℝ → α)
    (length sizeofT : ℕ) (frequency volume : ℝ) (channel_count : ℕ)
    (samples_per_second : ℝ) (initial_time : Option ℝ)
    (generator : ℝ → ℝ → ℝ) : List (ℕ × α) × Option ℝ :=
  let increment : ℝ := 1 / samples_per_second
  let time : ℝ := initial_time.getD 0
  let r := genLoop encode generator frequency volume increment channel_count
    (iterCount (length / sizeofT) channel_count) time 0
  (r.1, initial_time.map (fun _ => r.2))

/-- The accumulator value after k additions of the increment, in source
order (iterated addition, as the loop performs it). -/
noncomputable def timeAfter (t0 increment : ℝ) : ℕ → ℝ
  | 0 => t0
  | k + 1 => timeAfter t0 increment k + increment

/- Helper lemmas about the loop. -/

theorem timeAfter_succ_left (t0 increment : ℝ) (k : ℕ) :
    timeAfter t0 increment (k + 1) = timeAfter (t0 + increment) increment k := by
  induction k with
  | zero => rfl
  | succ k ih =>
    show timeAfter t0 increment (k + 1) + increment = _
    rw [ih]
    rfl

theorem timeAfter_add (t0 increment : ℝ) (a b : ℕ) :
    timeAfter t0 increment (a + b) = timeAfter (timeAfter t0 increment a) increment b := by
  induction b with
  | zero => rfl
  | succ b ih =>
    show timeAfter t0 increment (a + b) + increment = _
    rw [ih]
    rfl

theorem iterCount_spec (n cc : ℕ) (hcc : 0 < cc) (k : ℕ) :
    k < iterCount n cc ↔ k * cc < n := by
  unfold iterCount
  rw [show k < (n + cc - 1) / cc ↔ k + 1 ≤ (n + cc - 1) / cc from Iff.rfl,
    Nat.le_div_iff_mul_le hcc, Nat.add_mul, Nat.one_mul]
  generalize k * cc = a
  omega

theorem iterCount_mul (n cc : ℕ) (hcc : 0 < cc) : iterCount (n * cc) cc = n := by
  unfold iterCount
  rcases Nat.eq_zero_or_pos n with h | h
  · subst h
    rw [Nat.zero_mul, Nat.zero_add]
    exact Nat.div_eq_of_lt (by omega)
  · have : n * cc + cc - 1 = (cc - 1) + n * cc := by omega
    rw [this, Nat.add_mul_div_right _ _ hcc, Nat.div_eq_of_lt (by omega)]
    omega

theorem genLoop_snd {α : Type} (encode : ℝ → α) (generator : ℝ → ℝ → ℝ)
    (frequency volume increment : ℝ) (cc : ℕ) (fuel : ℕ) (t : ℝ) (i : ℕ) :
    (genLoop encode generator frequency volume increment cc fuel t i).2 =
      timeAfter t increment fuel := by
  induction fuel generalizing t i with
  | zero => rfl
  | succ fuel ih =>
    show (genLoop encode generator frequency volume increment cc fuel
      (t + increment) (i + cc)).2 = _
    rw [ih, timeAfter_succ_left]

/-- Complete characterisation of the write list produced by the loop:
the m-th write (0-based) targets slot i + m and stores the encoding of
volume times the generator evaluated at the accumulator of frame m / cc. -/
theorem genLoop_fst {α : Type} (encode : ℝ → α) (generator : ℝ → ℝ → ℝ)
    (frequency volume increment : ℝ) (cc : ℕ) (hcc : 0 < cc) (fuel : ℕ) (t : ℝ) (i : ℕ) :
    (genLoop encode generator frequency volume increment cc fuel t i).1 =
      (List.range (fuel * cc)).map (fun m =>
        (i + m, encode (volume * generator frequency (timeAfter t increment (m / cc))))) := by
  induction fuel generalizing t i with
  | zero => simp [genLoop]
  | succ fuel ih =>
    show (List.range cc).map _ ++
        (genLoop encode generator frequency volume increment cc fuel
          (t + increment) (i + cc)).1 = _
    rw [ih]
    have hsplit : (fuel + 1) * cc = cc + fuel * cc := by ring
    rw [hsplit, List.range_add, List.map_append, List.map_map]
    congr 1
    · refine List.map_congr_left (fun m hm => ?_)
      rw [List.mem_range] at hm
      rw [Nat.div_eq_of_lt hm]
      rfl
    · refine List.map_congr_left (fun m _ => ?_)
      simp only [Function.comp]
      have h1 : i + cc + m = i + (cc + m) := by omega
      have h2 : (cc + m) / cc = m / cc + 1 := by
        rw [Nat.add_comm cc m, Nat.add_div_right _ hcc]
      rw [h1, h2, ← timeAfter_succ_left]

/-!
Model of the render pacer in main (lines 181-261).  Device interaction is
abstracted as the sequence of padding values returned by successive
GetCurrentPadding calls (one per wakeup of the event).  A Commit records
one GetBuffer/ReleaseBuffer pair: the frame count requested, the capacity
`buffer_size - padding` computed from the padding query that immediately
precedes it, and whether it was released with AUDCLNT_BUFFERFLAGS_SILENT.
-/

structure Commit where
  requested : ℕ
  available : ℕ
  silent : Bool
deriving DecidableEq

/-- main.cpp lines 197-204 and 254-261: query padding, then GetBuffer and
ReleaseBuffer with `buffer_size - padding` frames and the SILENT flag.
The supplied bytes are never written; the flag makes the engine treat the
buffer as silence. -/
def silenceCommit (buffer_size padding : ℕ) : Commit :=
  { requested := buffer_size - padding
    available := buffer_size - padding
    silent := true }

/-- main.cpp lines 206-248: the streaming loop, driven by the successive
padding observations.  Each wakeup queries the padding; if a full
device-period chunk fits (`buffer_size_bytes <= frames_available * nBlockAlign`)
the loop requests `buffer_size_bytes / nBlockAlign` frames, fills and
commits them, and increments written_buffers; otherwise it just waits
again.  The loop exits once written_buffers reaches buffer_count. -/
def streamLoop (buffer_size buffer_size_bytes nBlockAlign buffer_count : ℕ) :
    List ℕ → ℕ → List Commit
  | [], _ => []
  | padding :: rest, written_buffers =>
    if written_buffers < buffer_count then
      if buffer_size_bytes ≤ (buffer_size - padding) * nBlockAlign then
        { requested := buffer_size_bytes / nBlockAlign
          available := buffer_size - padding
          silent := false }
          :: streamLoop buffer_size buffer_size_bytes nBlockAlign buffer_count rest
              (written_buffers + 1)
      else
        streamLoop buffer_size buffer_size_bytes nBlockAlign buffer_count rest
          written_buffers
    else []

/-- The whole session: one silence commit (priming, padding p0), the
streaming loop over its padding observations, one silence commit
(draining, padding pEnd). -/
def session (buffer_size buffer_size_bytes nBlockAlign buffer_count p0 pEnd : ℕ)
    (paddings : List ℕ) : List Commit :=
  silenceCommit buffer_size p0 ::
    (streamLoop buffer_size buffer_size_bytes nBlockAlign buffer_count paddings 0 ++
      [silenceCommit buffer_size pEnd])

/-!
Frame accounting of main (lines 178-184): chunk size, total byte length
and buffer count, exactly as computed in the source.  All quantities are
naturals; duration is `duration` seconds at `nSamplesPerSec` frames per
second, `nBlockAlign` bytes per frame.
-/

/-- main.cpp line 179: `buffer_size_per_period * format->nBlockAlign`. -/
def buffer_size_bytes_of (buffer_size_per_period nBlockAlign : ℕ) : ℕ :=
  buffer_size_per_period * nBlockAlign

/-- main.cpp line 180: `(nSamplesPerSec * duration * nBlockAlign) + (buffer_size_bytes - 1)`. -/
def data_length_of (nSamplesPerSec duration nBlockAlign buffer_size_per_period : ℕ) : ℕ :=
  nSamplesPerSec * duration * nBlockAlign +
    (buffer_size_bytes_of buffer_size_per_period nBlockAlign - 1)

/-- main.cpp line 181: `data_length / buffer_size_bytes`. -/
def buffer_count_of (nSamplesPerSec duration nBlockAlign buffer_size_per_period : ℕ) : ℕ :=
  data_length_of nSamplesPerSec duration nBlockAlign buffer_size_per_period /
    buffer_size_bytes_of buffer_size_per_period nBlockAlign

/-- main.cpp line 215: `buffer_size_bytes / format->nBlockAlign`, the frame
count of every streaming GetBuffer request. -/
def frames_to_write_of (buffer_size_per_period nBlockAlign : ℕ) : ℕ :=
  buffer_size_bytes_of buffer_size_per_period nBlockAlign / nBlockAlign

/-- Total frames committed by a completed streaming phase: buffer_count
iterations, each committing frames_to_write frames. -/
def totalFramesWritten (nSamplesPerSec duration nBlockAlign buffer_size_per_period : ℕ) : ℕ :=
  buffer_count_of nSamplesPerSec duration nBlockAlign buffer_size_per_period *
    frames_to_write_of buffer_size_per_period nBlockAlign

/- Helper lemmas for the waveform generators. -/

theorem sign_spec (x : ℝ) :
    (0 < x → sign x = 1) ∧ (x < 0 → sign x = -1) ∧ (x = 0 → sign x = 0) := by
  refine ⟨fun h => ?_, fun h => ?_, fun h => ?_⟩
  · simp [sign, h, asymm h]
  · simp [sign, h, asymm h]
  · simp [sign, h]

theorem sign_zero_iff (x : ℝ) : sign x = 0 ↔ x = 0 := by
  obtain ⟨h1, h2, h3⟩ := sign_spec x
  constructor
  · intro h
    by_contra hx
    rcases lt_or_gt_of_ne hx with hlt | hgt
    · rw [h2 hlt] at h; norm_num at h
    · rw [h1 hgt] at h; norm_num at h
  · exact h3

theorem sign_mem_Icc (x : ℝ) : sign x ∈ Set.Icc (-1 : ℝ) 1 := by
  obtain ⟨h1, h2, h3⟩ := sign_spec x
  rcases lt_trichotomy x 0 with h | h | h
  · rw [h2 h]; constructor <;> norm_num
  · rw [h3 h]; constructor <;> norm_num
  · rw [h1 h]; constructor <;> norm_num

theorem centered_fract_bounds (x : ℝ) :
    -(1 / 2) ≤ x - ⌊x + 0.5⌋ ∧ x - ⌊x + 0.5⌋ < 1 / 2 := by
  have h1 : ((⌊x + 0.5⌋ : ℤ) : ℝ) ≤ x + 0.5 := Int.floor_le (x + 0.5)
  have h2 : x + 0.5 < ((⌊x + 0.5⌋ : ℤ) : ℝ) + 1 := Int.lt_floor_add_one (x + 0.5)
  have h05 : (0.5 : ℝ) = 1 / 2 := by norm_num
  rw [h05] at h1 h2 ⊢
  constructor <;> linarith

/-- C2: for every frequency f > 0 and time t >= 0, the four waveform
generators sine, square, triangle and sawtooth return values in the
closed interval [-1, 1]; square is the sign of the sine of the same
phase, equal to plus or minus 1 away from zero crossings and to 0
exactly at zero crossings of the sine. -/
theorem waveform_range (f t : ℝ) (hf : 0 < f) (ht : 0 ≤ t) :
    sine f t ∈ Set.Icc (-1 : ℝ) 1 ∧
    square f t ∈ Set.Icc (-1 : ℝ) 1 ∧
    triangle f t ∈ Set.Icc (-1 : ℝ) 1 ∧
    sawtooth f t ∈ Set.Icc (-1 : ℝ) 1 ∧
    square f t = sign (sine f t) ∧
    (square f t = 0 ↔ sine f t = 0) := by
  obtain ⟨hl, hr⟩ := centered_fract_bounds (t * f)
  refine ⟨⟨Real.neg_one_le_sin _, Real.sin_le_one _⟩, sign_mem_Icc _, ?_, ?_, rfl, ?_⟩
  · unfold triangle
    have habs : |2 * (t * f - ⌊t * f + 0.5⌋)| ≤ 1 :=
      abs_le.mpr ⟨by linarith, by linarith⟩
    have hnn : 0 ≤ |2 * (t * f - ⌊t * f + 0.5⌋)| := abs_nonneg _
    exact ⟨by linarith, by linarith⟩
  · unfold sawtooth
    exact ⟨by linarith, by linarith⟩
  · exact sign_zero_iff _

/-- Witness for C2 at f = 1, t = 0. -/
theorem waveform_range_witness :
    sine 1 0 ∈ Set.Icc (-1 : ℝ) 1 ∧
    square 1 0 ∈ Set.Icc (-1 : ℝ) 1 ∧
    triangle 1 0 ∈ Set.Icc (-1 : ℝ) 1 ∧
    sawtooth 1 0 ∈ Set.Icc (-1 : ℝ) 1 ∧
    square 1 0 = sign (sine 1 0) ∧
    (square 1 0 = 0 ↔ sine 1 0 = 0) :=
  waveform_range 1 0 (by norm_num) (by norm_num)

/-- C3 counterexample: at volume = 1/2 and value = 1 the product
volume * value * 32767 is 16383.5; the source's `(short)` cast stores its
truncation 16383, while the claimed round-to-nearest would store 16384. -/
theorem int16_encode_ne_round :
    encodeInt16 ((1 / 2) * 1) ≠ wrap16 (round (((1 : ℝ) / 2) * 1 * 32767)) := by
  have htrunc : truncTowardZero (((1 : ℝ) / 2) * 1 * 32767) = 16383 := by
    unfold truncTowardZero
    rw [if_pos (by norm_num), Int.floor_eq_iff]
    constructor <;> norm_num
  have hround : round (((1 : ℝ) / 2) * 1 * 32767) = 16384 := by
    rw [round_eq, Int.floor_eq_iff]
    constructor <;> norm_num
  unfold encodeInt16
  rw [htrunc, hround]
  norm_num [wrap16]

/-- C3 amended: in the Int16PCM (short) branch, the m-th sample written
by generate_samples is the truncation toward zero (not the rounding) of
volume * value * 32767, reduced into the 16-bit range, where value is the
generator evaluated at the frame's accumulator time. -/
theorem generate_samples_int16_trunc
    (generator : ℝ → ℝ → ℝ) (frequency volume samples_per_second t0 : ℝ)
    (length cc : ℕ) (hcc : 0 < cc) :
    (generate_samples encodeInt16 length 2 frequency volume cc samples_per_second
        (some t0) generator).1 =
      (List.range (iterCount (length / 2) cc * cc)).map (fun m =>
        (m, wrap16 (truncTowardZero
          (volume * generator frequency
            (timeAfter t0 (1 / samples_per_second) (m / cc)) * 32767)))) := by
  show (genLoop encodeInt16 generator frequency volume (1 / samples_per_second) cc
      (iterCount (length / 2) cc) t0 0).1 = _
  rw [genLoop_fst _ _ _ _ _ _ hcc]
  refine List.map_congr_left (fun m _ => ?_)
  simp [encodeInt16]

/-- Witness for C3's amended theorem at a concrete instantiation. -/
theorem generate_samples_int16_trunc_witness :
    (generate_samples encodeInt16 4 2 1 1 1 1 (some 0) (fun _ _ => 0)).1 =
      (List.range (iterCount (4 / 2) 1 * 1)).map (fun m =>
        (m, wrap16 (truncTowardZero
          (1 * (fun _ _ => (0 : ℝ)) 1 (timeAfter 0 (1 / 1) (m / 1)) * 32767)))) :=
  generate_samples_int16_trunc (fun _ _ => 0) 1 1 1 0 4 1 (by norm_num)

/-- C8: with volume * value = 1.001, slightly above 1, the encoded
sample is the truncated product 32799 reduced modulo 2^16 into the
16-bit range, i.e. 32799 - 65536 = -32737, not a value saturated to
32767 or -32768: the encoder wraps instead of clamping. -/
theorem int16_wraparound :
    ∃ volume value : ℝ, 1 < volume * value ∧ volume * value < 1.01 ∧
      truncTowardZero (volume * value * 32767) = 32799 ∧
      encodeInt16 (volume * value) = 32799 - 2 ^ 16 ∧
      encodeInt16 (volume * value) ≠ 32767 ∧
      encodeInt16 (volume * value) ≠ -32768 := by
  have htrunc : truncTowardZero ((1.001 : ℝ) * 1 * 32767) = 32799 := by
    unfold truncTowardZero
    rw [if_pos (by norm_num), Int.floor_eq_iff]
    constructor <;> norm_num
  refine ⟨1.001, 1, by norm_num, by norm_num, htrunc, ?_, ?_, ?_⟩
  · unfold encodeInt16; rw [htrunc]; norm_num [wrap16]
  · unfold encodeInt16; rw [htrunc]; norm_num [wrap16]
  · unfold encodeInt16; rw [htrunc]; norm_num [wrap16]

/- Characterisation of generate_samples when called through a non-null
initial_time pointer, as main does. -/

theorem generate_samples_fst {α : Type} (encode : ℝ → α) (generator : ℝ → ℝ → ℝ)
    (frequency volume samples_per_second t0 : ℝ) (length sz cc : ℕ) (hcc : 0 < cc) :
    (generate_samples encode length sz frequency volume cc samples_per_second
        (some t0) generator).1 =
      (List.range (iterCount (length / sz) cc * cc)).map (fun m =>
        (m, encode (volume * generator frequency
          (timeAfter t0 (1 / samples_per_second) (m / cc))))) := by
  show (genLoop encode generator frequency volume (1 / samples_per_second) cc
      (iterCount (length / sz) cc) t0 0).1 = _
  rw [genLoop_fst _ _ _ _ _ _ hcc]
  simp

theorem generate_samples_snd {α : Type} (encode : ℝ → α) (generator : ℝ → ℝ → ℝ)
    (frequency volume samples_per_second t0 : ℝ) (length sz cc : ℕ) :
    (generate_samples encode length sz frequency volume cc samples_per_second
        (some t0) generator).2 =
      some (timeAfter t0 (1 / samples_per_second) (iterCount (length / sz) cc)) := by
  show some (genLoop encode generator frequency volume (1 / samples_per_second) cc
      (iterCount (length / sz) cc) t0 0).2 = _
  rw [genLoop_snd]

/-- C1: phase continuity.  For any generator, frequency, volume, channel
count, sample rate and starting accumulator t0, filling N frames in one
generate_samples call produces the same sample sequence and the same
written-back accumulator as filling M frames and then N - M frames,
where the second call receives, unreset, exactly the accumulator the
first call wrote back through initial_time. -/
theorem generate_samples_split {α : Type} (encode : ℝ → α) (generator : ℝ → ℝ → ℝ)
    (frequency volume samples_per_second t0 : ℝ) (cc sz N M : ℕ)
    (hcc : 0 < cc) (hsz : 0 < sz) (hMN : M ≤ N) :
    (generate_samples encode (N * cc * sz) sz frequency volume cc samples_per_second
        (some t0) generator).1.map Prod.snd =
      (generate_samples encode (M * cc * sz) sz frequency volume cc samples_per_second
          (some t0) generator).1.map Prod.snd ++
        (generate_samples encode ((N - M) * cc * sz) sz frequency volume cc
            samples_per_second
            (generate_samples encode (M * cc * sz) sz frequency volume cc
              samples_per_second (some t0) generator).2 generator).1.map Prod.snd ∧
    (generate_samples encode (N * cc * sz) sz frequency volume cc samples_per_second
        (some t0) generator).2 =
      (generate_samples encode ((N - M) * cc * sz) sz frequency volume cc
          samples_per_second
          (generate_samples encode (M * cc * sz) sz frequency volume cc
            samples_per_second (some t0) generator).2 generator).2 := by
  have hiter : ∀ K : ℕ, iterCount (K * cc * sz / sz) cc = K := fun K => by
    rw [Nat.mul_div_cancel _ hsz, iterCount_mul _ _ hcc]
  have hsnd1 : (generate_samples encode (M * cc * sz) sz frequency volume cc
      samples_per_second (some t0) generator).2 =
        some (timeAfter t0 (1 / samples_per_second) M) := by
    rw [generate_samples_snd, hiter]
  constructor
  · rw [hsnd1, generate_samples_fst _ _ _ _ _ _ _ _ _ hcc,
      generate_samples_fst _ _ _ _ _ _ _ _ _ hcc,
      generate_samples_fst _ _ _ _ _ _ _ _ _ hcc, hiter, hiter, hiter,
      List.map_map, List.map_map, List.map_map]
    have hsplitN : N * cc = M * cc + (N - M) * cc := by
      rw [← Nat.add_mul]
      congr 1
      omega
    rw [hsplitN, List.range_add, List.map_append, List.map_map]
    congr 1
    refine List.map_congr_left (fun m hm => ?_)
    simp only [Function.comp]
    have hdiv : (M * cc + m) / cc = M + m / cc := by
      rw [Nat.mul_comm M cc, Nat.mul_add_div hcc]
    rw [hdiv, timeAfter_add]
  · rw [hsnd1, generate_samples_snd, generate_samples_snd, hiter, hiter,
      ← timeAfter_add]
    congr 2
    omega

/-- Witness for C1 at a concrete split: N = 2 frames, M = 1, one channel. -/
theorem generate_samples_split_witness :
    (generate_samples encodeFloat (2 * 1 * 4) 4 1 1 1 1 (some 0)
        (fun _ _ => 0)).1.map Prod.snd =
      (generate_samples encodeFloat (1 * 1 * 4) 4 1 1 1 1 (some 0)
          (fun _ _ => 0)).1.map Prod.snd ++
        (generate_samples encodeFloat ((2 - 1) * 1 * 4) 4 1 1 1 1
            (generate_samples encodeFloat (1 * 1 * 4) 4 1 1 1 1 (some 0)
              (fun _ _ => 0)).2 (fun _ _ => 0)).1.map Prod.snd ∧
    (generate_samples encodeFloat (2 * 1 * 4) 4 1 1 1 1 (some 0)
        (fun _ _ => 0)).2 =
      (generate_samples encodeFloat ((2 - 1) * 1 * 4) 4 1 1 1 1
          (generate_samples encodeFloat (1 * 1 * 4) 4 1 1 1 1 (some 0)
            (fun _ _ => 0)).2 (fun _ _ => 0)).2 :=
  generate_samples_split encodeFloat (fun _ _ => 0) 1 1 1 0 1 4 2 1
    (by norm_num) (by norm_num) (by norm_num)

/-- C7: channel replication.  The filled buffer holds exactly one sample
per channel per frame (iterCount frames times cc slots), and within
frame k every channel slot k * cc + j, j < cc, receives the same encoded
value, determined by the frame index k alone. -/
theorem generate_samples_channels {α : Type} (encode : ℝ → α) (generator : ℝ → ℝ → ℝ)
    (frequency volume samples_per_second t0 : ℝ) (length sz cc : ℕ) (hcc : 0 < cc) :
    (generate_samples encode length sz frequency volume cc samples_per_second
        (some t0) generator).1.length = iterCount (length / sz) cc * cc ∧
    ∀ k j : ℕ, k < iterCount (length / sz) cc → j < cc →
      (generate_samples encode length sz frequency volume cc samples_per_second
          (some t0) generator).1[k * cc + j]? =
        some (k * cc + j, encode (volume * generator frequency
          (timeAfter t0 (1 / samples_per_second) k))) := by
  rw [generate_samples_fst _ _ _ _ _ _ _ _ _ hcc]
  refine ⟨by simp, fun k j hk hj => ?_⟩
  have hlt : k * cc + j < iterCount (length / sz) cc * cc := by
    have h1 : (k + 1) * cc ≤ iterCount (length / sz) cc * cc :=
      Nat.mul_le_mul_right _ hk
    have h2 : k * cc + j < (k + 1) * cc := by
      rw [Nat.add_mul, Nat.one_mul]
      omega
    omega
  rw [List.getElem?_map, List.getElem?_range hlt]
  have hdiv : (k * cc + j) / cc = k := by
    rw [Nat.mul_comm k cc, Nat.mul_add_div hcc, Nat.div_eq_of_lt hj, Nat.add_zero]
  simp [hdiv]

/-- Witness for C7 with two channels and two frames. -/
theorem generate_samples_channels_witness :
    (generate_samples encodeFloat 8 2 1 1 2 1 (some 0) (fun _ _ => 0)).1.length =
      iterCount (8 / 2) 2 * 2 ∧
    ∀ k j : ℕ, k < iterCount (8 / 2) 2 → j < 2 →
      (generate_samples encodeFloat 8 2 1 1 2 1 (some 0) (fun _ _ => 0)).1[k * 2 + j]? =
        some (k * 2 + j, encodeFloat (1 * (fun _ _ => (0 : ℝ)) 1 (timeAfter 0 (1 / 1) k))) :=
  generate_samples_channels encodeFloat (fun _ _ => 0) 1 1 1 0 8 2 2 (by norm_num)

/-- C9: when length is an exact multiple of sizeof(T) * channel_count,
every write of generate_samples lands strictly below length / sizeof(T),
inside the provided buffer; and without that divisibility the final
frame overruns: with length = 6 bytes of shorts (3 samples) and 2
channels the loop writes slots 0, 1, 2, 3, one slot (cc - 1 = 1 slots)
past the last valid index 2. -/
theorem generate_samples_in_bounds {α : Type} (encode : ℝ → α) (generator : ℝ → ℝ → ℝ)
    (frequency volume samples_per_second t0 : ℝ) (length sz cc : ℕ)
    (hsz : 0 < sz) (hcc : 0 < cc) (hdvd : sz * cc ∣ length) :
    (∀ w ∈ (generate_samples encode length sz frequency volume cc samples_per_second
        (some t0) generator).1, w.1 < length / sz) ∧
    ((generate_samples encodeFloat 6 2 1 1 2 1 (some 0)
        (fun _ _ => 0)).1.map Prod.fst = [0, 1, 2, 3] ∧ ¬(3 < 6 / 2)) := by
  constructor
  · obtain ⟨q, hq⟩ := hdvd
    subst hq
    have hlen : sz * cc * q / sz = cc * q := by
      rw [Nat.mul_assoc, Nat.mul_div_cancel_left _ hsz]
    rw [generate_samples_fst _ _ _ _ _ _ _ _ _ hcc, hlen,
      Nat.mul_comm cc q, iterCount_mul _ _ hcc]
    intro w hw
    simp only [List.mem_map, List.mem_range] at hw
    obtain ⟨m, hm, hw⟩ := hw
    have hw1 : w.1 = m := by rw [← hw]
    rw [hw1]
    exact hm
  · constructor
    · rw [generate_samples_fst _ _ _ _ _ _ _ _ _ (by norm_num : (0:ℕ) < 2)]
      rw [List.map_map]
      rfl
    · decide

/-- Witness for C9 at length 8, sizeof(short) = 2, two channels. -/
theorem generate_samples_in_bounds_witness :
    (∀ w ∈ (generate_samples encodeFloat 8 2 1 1 2 1 (some 0)
        (fun _ _ => 0)).1, w.1 < 8 / 2) ∧
    ((generate_samples encodeFloat 6 2 1 1 2 1 (some 0)
        (fun _ _ => 0)).1.map Prod.fst = [0, 1, 2, 3] ∧ ¬(3 < 6 / 2)) :=
  generate_samples_in_bounds encodeFloat (fun _ _ => 0) 1 1 1 0 8 2 2
    (by norm_num) (by norm_num) (by norm_num)

/-- C10: determinism.  Two invocations of generate_samples with equal
buffer length, sample width, frequency, volume, channel count, sample
rate, initial time and generator produce equal write lists and equal
written-back accumulators.  The model has no other inputs, matching the
source function, which reads no global mutable state. -/
theorem generate_samples_deterministic {α : Type} (encode : ℝ → α)
    (length₁ length₂ sz₁ sz₂ cc₁ cc₂ : ℕ) (f₁ f₂ v₁ v₂ sr₁ sr₂ : ℝ)
    (t₁ t₂ : Option ℝ) (g₁ g₂ : ℝ → ℝ → ℝ)
    (hl : length₁ = length₂) (hs : sz₁ = sz₂) (hf : f₁ = f₂) (hv : v₁ = v₂)
    (hc : cc₁ = cc₂) (hr : sr₁ = sr₂) (ht : t₁ = t₂) (hg : g₁ = g₂) :
    generate_samples encode length₁ sz₁ f₁ v₁ cc₁ sr₁ t₁ g₁ =
      generate_samples encode length₂ sz₂ f₂ v₂ cc₂ sr₂ t₂ g₂ := by
  subst hl hs hf hv hc hr ht hg
  rfl

/-- Witness for C10 at a concrete invocation. -/
theorem generate_samples_deterministic_witness :
    generate_samples encodeFloat 4 4 220 0.3 1 48000 (some 0) sawtooth =
      generate_samples encodeFloat 4 4 220 0.3 1 48000 (some 0) sawtooth :=
  generate_samples_deterministic encodeFloat 4 4 4 4 1 1 220 220 0.3 0.3
    48000 48000 (some 0) (some 0) sawtooth sawtooth
    rfl rfl rfl rfl rfl rfl rfl rfl

/- Helper lemmas about the streaming loop and the frame accounting. -/

theorem streamLoop_commits (bs bsb ba count : ℕ) :
    ∀ (ps : List ℕ) (w : ℕ), ∀ c ∈ streamLoop bs bsb ba count ps w,
      c.requested = bsb / ba ∧ c.silent = false ∧ bsb ≤ c.available * ba := by
  intro ps
  induction ps with
  | nil => intro w c hc; simp [streamLoop] at hc
  | cons p rest ih =>
    intro w c hc
    rw [streamLoop] at hc
    by_cases h1 : w < count
    · rw [if_pos h1] at hc
      by_cases h2 : bsb ≤ (bs - p) * ba
      · rw [if_pos h2] at hc
        rcases List.mem_cons.mp hc with h | h
        · subst h
          exact ⟨rfl, rfl, h2⟩
        · exact ih _ c h
      · rw [if_neg h2] at hc
        exact ih _ c hc
    · rw [if_neg h1] at hc
      simp at hc

theorem iterCount_bounds (n cc : ℕ) (hcc : 0 < cc) :
    n ≤ iterCount n cc * cc ∧ iterCount n cc * cc < n + cc := by
  constructor
  · by_contra h
    push_neg at h
    exact lt_irrefl _ ((iterCount_spec n cc hcc _).mpr h)
  · rcases Nat.eq_zero_or_pos (iterCount n cc) with h | h
    · rw [h, Nat.zero_mul]
      omega
    · obtain ⟨e, he⟩ := Nat.exists_eq_succ_of_ne_zero (Nat.pos_iff_ne_zero.mp h)
      have he2 : e < iterCount n cc := by omega
      have he3 := (iterCount_spec n cc hcc e).mp he2
      rw [he]
      calc (e + 1) * cc = e * cc + cc := by ring
        _ < n + cc := by omega

theorem iterCount_dvd (n cc : ℕ) (hcc : 0 < cc) (h : cc ∣ n) :
    iterCount n cc * cc = n := by
  obtain ⟨q, hq⟩ := h
  subst hq
  rw [Nat.mul_comm cc q, iterCount_mul _ _ hcc]

/-- main's buffer count equals the requested frame total divided by the
chunk size, rounded up (independently of the byte width nBlockAlign). -/
theorem buffer_count_eq_ceil (sr dur ba bspp : ℕ) (hba : 0 < ba) (hc : 0 < bspp) :
    buffer_count_of sr dur ba bspp = (sr * dur + bspp - 1) / bspp := by
  unfold buffer_count_of data_length_of buffer_size_bytes_of
  have h1 : 1 ≤ bspp * ba := Nat.mul_pos hc hba
  have h2 : 1 ≤ sr * dur + bspp := by omega
  have hnum : sr * dur * ba + (bspp * ba - 1) =
      ba * (sr * dur + bspp - 1) + (ba - 1) := by
    zify [h1, h2, hba]
    ring
  rw [hnum, Nat.mul_comm bspp ba, ← Nat.div_div_eq_div_mul,
    Nat.mul_add_div hba, Nat.div_eq_of_lt (show ba - 1 < ba by omega), Nat.add_zero]

/-- C5: no buffer overrun.  Every GetBuffer request of the session, in
the priming commit, every streaming commit and the draining commit,
requests at most the capacity buffer_size - padding computed from the
padding query that immediately precedes it. -/
theorem session_no_overrun (bs bsb ba count p0 pEnd : ℕ) (ps : List ℕ)
    (hba : 0 < ba) :
    ∀ c ∈ session bs bsb ba count p0 pEnd ps, c.requested ≤ c.available := by
  intro c hc
  rw [session] at hc
  rcases List.mem_cons.mp hc with h | h
  · subst h
    exact le_refl _
  · rcases List.mem_append.mp h with h | h
    · obtain ⟨hr, _, hb⟩ := streamLoop_commits bs bsb ba count ps 0 c h
      rw [hr]
      calc bsb / ba ≤ c.available * ba / ba := Nat.div_le_div_right hb
        _ = c.available := Nat.mul_div_cancel _ hba
    · rw [List.mem_singleton.mp h]
      exact le_refl _

/-- Witness for C5: a streaming commit of a concrete session trace. -/
theorem session_no_overrun_witness :
    Commit.requested { requested := 2, available := 8, silent := false } ≤
      Commit.available { requested := 2, available := 8, silent := false } :=
  session_no_overrun 8 4 2 2 0 0 [0, 0, 0] (by norm_num)
    { requested := 2, available := 8, silent := false } (by decide)

/-- C6: priming and draining silence.  For every device format (any
buffer size, chunk size, block align and padding observations), the
session trace starts and ends with the single silence commit of the
priming and draining blocks, both released with the SILENT flag (the
engine then renders the representation's zero value for every frame of
those buffers), while no streaming commit carries the flag. -/
theorem session_silence (bs bsb ba count p0 pEnd : ℕ) (ps : List ℕ) :
    (session bs bsb ba count p0 pEnd ps).head? = some (silenceCommit bs p0) ∧
    (session bs bsb ba count p0 pEnd ps).getLast? = some (silenceCommit bs pEnd) ∧
    (silenceCommit bs p0).silent = true ∧
    (silenceCommit bs pEnd).silent = true ∧
    ∀ c ∈ streamLoop bs bsb ba count ps 0, c.silent = false := by
  refine ⟨rfl, ?_, rfl, rfl, fun c hc => (streamLoop_commits bs bsb ba count ps 0 c hc).2.1⟩
  rw [session, ← List.cons_append]
  exact List.getLast?_concat _

/-- C4 counterexample: at 100 frames per second, duration 1 s, 2 bytes
per frame and a 30-frame device period, main's accounting yields
buffer_count = 4 and 30 frames per chunk, so the streaming loop writes
120 frames, not the requested 100 = sampleRate x duration: the code
rounds the buffer count up and always writes full chunks, overrunning
the requested duration instead of shortening the final chunk. -/
theorem total_frames_counterexample :
    totalFramesWritten 100 1 2 30 = 120 ∧ (120 : ℕ) ≠ 100 * 1 := by decide

/-- C4 amended: the frames written by a completed streaming phase total
the requested sampleRate x duration rounded UP to a whole number of
device-period chunks: at least the requested total, exceeding it by less
than one chunk, and equal to it exactly when the chunk size divides it;
every streaming commit requests the full nominal chunk, so the final
chunk is never short. -/
theorem total_frames_amended (sr dur ba bspp : ℕ) (hba : 0 < ba) (hc : 0 < bspp) :
    totalFramesWritten sr dur ba bspp = ((sr * dur + bspp - 1) / bspp) * bspp ∧
    sr * dur ≤ totalFramesWritten sr dur ba bspp ∧
    totalFramesWritten sr dur ba bspp < sr * dur + bspp ∧
    (bspp ∣ sr * dur → totalFramesWritten sr dur ba bspp = sr * dur) ∧
    ∀ (bs count : ℕ) (ps : List ℕ) (w : ℕ),
      ∀ c ∈ streamLoop bs (buffer_size_bytes_of bspp ba) ba count ps w,
        c.requested = bspp := by
  have hftw : frames_to_write_of bspp ba = bspp := by
    unfold frames_to_write_of buffer_size_bytes_of
    exact Nat.mul_div_cancel _ hba
  have htot : totalFramesWritten sr dur ba bspp = iterCount (sr * dur) bspp * bspp := by
    unfold totalFramesWritten
    rw [hftw, buffer_count_eq_ceil _ _ _ _ hba hc]
    rfl
  obtain ⟨hlo, hhi⟩ := iterCount_bounds (sr * dur) bspp hc
  refine ⟨htot, ?_, ?_, ?_, ?_⟩
  · rw [htot]; exact hlo
  · rw [htot]; exact hhi
  · intro hdvd
    rw [htot]
    exact iterCount_dvd _ _ hc hdvd
  · intro bs count ps w c hc2
    have hr := (streamLoop_commits bs (buffer_size_bytes_of bspp ba) ba count ps w c hc2).1
    rw [hr]
    unfold buffer_size_bytes_of
    exact Nat.mul_div_cancel _ hba

/-- Witness for C4's amended theorem at the counterexample's numbers. -/
theorem total_frames_amended_witness :
    totalFramesWritten 100 1 2 30 = ((100 * 1 + 30 - 1) / 30) * 30 ∧
    100 * 1 ≤ totalFramesWritten 100 1 2 30 ∧
    totalFramesWritten 100 1 2 30 < 100 * 1 + 30 ∧
    (30 ∣ 100 * 1 → totalFramesWritten 100 1 2 30 = 100 * 1) ∧
    ∀ (bs count : ℕ) (ps : List ℕ) (w : ℕ),
      ∀ c ∈ streamLoop bs (buffer_size_bytes_of 30 2) 2 count ps w,
        c.requested = 30 :=
  total_frames_amended 100 1 2 30 (by norm_num) (by norm_num)
